import Mathlib

/-
Verification of the genji document-database core against its source.

The development shallowly embeds the Go source:

* `document/stream.go` (the document iterator and stream pipeline:
  `Stream`, `documentsIterator`, `multiIterator`, the stream operators
  `Map`, `Filter`, `Limit`, `Offset`, `Append`, and the terminal
  reducers `Count` and `First`),
* `sql/query/expr` (the `AndOp.Eval` / `OrOp.Eval` short-circuit logic),
* `database` (the `tableConfigStore` over an `engine.Store`),
* the top-level `Open` dispatcher.

Go conventions are mapped as follows: a fallible call returning
`(T, error)` becomes a pair `T × Option GoErr` (or `Except` when the
value is absent on error); a callback closure that mutates captured
variables becomes an explicit state-threading function
`sigma -> D -> sigma × Option GoErr`; a mutation of a key/value store
becomes a function returning the new store.
-/

set_option autoImplicit false

namespace Genji

/-- Go `error` values as they appear in the stream pipeline: the sentinel
`ErrStreamClosed` plus arbitrary other errors (tagged by a number standing
for the identity of the Go error value; Go compares errors by identity). -/
inductive GoErr where
  | streamClosed
  | user (code : Nat)
deriving DecidableEq

/-- The sentinel `document.ErrStreamClosed`. -/
def ErrStreamClosed : GoErr := GoErr.streamClosed

variable {D : Type}

/-- A stream operator instance, as produced by a `StreamOperator` factory in
`document/stream.go`.  An instance is a Go closure over at most one mutable
`int` (the `count` of `Limit`, the `skipped` of `Offset`); the closure state
is made explicit as an `Int` threaded by `opStep`.  `mapOp` holds the raw
function passed to `Stream.Map` (which may return a nil document and/or an
error), `filterOp` the predicate passed to `Stream.Filter`. -/
inductive StreamOp (D : Type) where
  | mapOp (f : D → Option D × Option GoErr)
  | filterOp (p : D → Bool × Option GoErr)
  | limitOp (n : Int)
  | offsetOp (n : Int)

/-- The `document.Iterator` implementations of `document/stream.go`:
`documentsIterator` (a slice of documents), `multiIterator` (a slice of
iterators run in sequence), and `Stream` itself (an optional underlying
iterator plus an optional operator; both fields are nil-able in Go). -/
inductive Iterator (D : Type) where
  | documentsIterator (ds : List D)
  | multiIterator (its : List (Iterator D))
  | stream (it : Option (Iterator D)) (op : Option (StreamOp D))

/-- `document.Stream`: an optional underlying iterator and an optional
stream operator. -/
structure Stream (D : Type) where
  it : Option (Iterator D)
  op : Option (StreamOp D)

/-- A `Stream` used as a `document.Iterator` (Go interface dispatch). -/
def Stream.toIter (s : Stream D) : Iterator D := Iterator.stream s.it s.op

/-- One call of a stream-operator instance (`opFn(r)` in `Stream.Iterate`):
given the instance's mutable `Int` and the incoming document, produce the
new mutable state and the Go result `(document, error)` where a nil
document means "skip". -/
def opStep : StreamOp D → Int → D → Int × (Option D × Option GoErr)
  | StreamOp.mapOp f, c, r => (c, f r)
  | StreamOp.filterOp p, c, r =>
      match p r with
      | (_, some e) => (c, (none, some e))
      | (true, none) => (c, (some r, none))
      | (false, none) => (c, (none, none))
  | StreamOp.limitOp n, c, r =>
      if c < n then (c + 1, (some r, none)) else (c, (none, some ErrStreamClosed))
  | StreamOp.offsetOp n, c, r =>
      if c < n then (c + 1, (none, none)) else (c, (some r, none))

/-- The error translation at the end of `Stream.Iterate`:
`if err != ErrStreamClosed { return err }; return nil`. -/
def scrub (e : Option GoErr) : Option GoErr :=
  if e = some ErrStreamClosed then none else e

/-- The closure `Stream.Iterate` passes to its underlying iterator when an
operator is present: apply `opFn`, return its error if any, skip nil
documents, otherwise call the caller's `fn`.  The operator's mutable `Int`
travels in the first state component. -/
def wrap {σ : Type} (op : StreamOp D) (fn : σ → D → σ × Option GoErr) :
    Int × σ → D → (Int × σ) × Option GoErr := fun cs r =>
  match opStep op cs.1 r with
  | (c', (_, some e)) => ((c', cs.2), some e)
  | (c', (none, none)) => ((c', cs.2), none)
  | (c', (some r', none)) =>
      match fn cs.2 r' with
      | (s', e') => ((c', s'), e')

/-- `documentsIterator.Iterate`: call `fn` on each document in order,
stopping at (and returning) the first error. -/
def documentsIterate {σ : Type} (fn : σ → D → σ × Option GoErr) :
    List D → σ → σ × Option GoErr
  | [], s => (s, none)
  | d :: ds, s =>
      match fn s d with
      | (s', none) => documentsIterate fn ds s'
      | (s', some e) => (s', some e)

mutual

/-- `Iterate` dispatched over the three `document.Iterator` implementations.
The `Iterator.stream` case is `Stream.Iterate` verbatim: nil iterator
returns nil; nil operator delegates to the underlying iterator; otherwise a
fresh operator instance (`opFn := s.op()`, state `0`) is wrapped around the
callback and `ErrStreamClosed` from the run is translated to nil. -/
def Iterator.iterate : Iterator D → (σ : Type) → σ → (σ → D → σ × Option GoErr) → σ × Option GoErr
  | Iterator.documentsIterator ds, _, s, fn => documentsIterate fn ds s
  | Iterator.multiIterator its, σ, s, fn => multiIterate its σ s fn
  | Iterator.stream none _, _, s, _ => (s, none)
  | Iterator.stream (some it) none, σ, s, fn => it.iterate σ s fn
  | Iterator.stream (some it) (some op), σ, s, fn =>
      let r := it.iterate (Int × σ) ((0 : Int), s) (wrap op fn)
      (r.1.2, scrub r.2)

/-- `multiIterator.Iterate`: run each iterator in turn, stopping at the
first non-nil error. -/
def multiIterate : List (Iterator D) → (σ : Type) → σ → (σ → D → σ × Option GoErr) → σ × Option GoErr
  | [], _, s, _ => (s, none)
  | it :: its, σ, s, fn =>
      match it.iterate σ s fn with
      | (s', none) => multiIterate its σ s' fn
      | (s', some e) => (s', some e)

end

/-- `Stream.Iterate` (interface dispatch on the stream's own fields). -/
def Stream.Iterate (s : Stream D) (σ : Type) (s0 : σ) (fn : σ → D → σ × Option GoErr) :
    σ × Option GoErr :=
  s.toIter.iterate σ s0 fn

/-- `document.NewStream`. -/
def NewStream (it : Iterator D) : Stream D := ⟨some it, none⟩

/-- `Stream.Pipe`. -/
def Stream.Pipe (s : Stream D) (op : StreamOp D) : Stream D := ⟨some s.toIter, some op⟩

/-- `Stream.Map`. -/
def Stream.Map (s : Stream D) (f : D → Option D × Option GoErr) : Stream D :=
  s.Pipe (StreamOp.mapOp f)

/-- `Stream.Filter`. -/
def Stream.Filter (s : Stream D) (p : D → Bool × Option GoErr) : Stream D :=
  s.Pipe (StreamOp.filterOp p)

/-- `Stream.Limit`. -/
def Stream.Limit (s : Stream D) (n : Int) : Stream D := s.Pipe (StreamOp.limitOp n)

/-- `Stream.Offset`. -/
def Stream.Offset (s : Stream D) (n : Int) : Stream D := s.Pipe (StreamOp.offsetOp n)

/-- `Stream.Append`: if the stream's iterator is already a `multiIterator`,
extend its slice; otherwise build a two-element `multiIterator` from the
stream itself and the new iterator.  Note the Go code reassigns only `s.it`;
`s.op` is kept on the returned stream. -/
def Stream.Append (s : Stream D) (i : Iterator D) : Stream D :=
  match s.it with
  | some (Iterator.multiIterator l) => { s with it := some (Iterator.multiIterator (l ++ [i])) }
  | _ => { s with it := some (Iterator.multiIterator [s.toIter, i]) }

/-- `Stream.Count`: iterate with a counter-incrementing callback and return
the counter together with the iteration error. -/
def Stream.Count (s : Stream D) : Int × Option GoErr :=
  Stream.Iterate s Int 0 (fun c _ => (c + 1, none))

/-- `Stream.First`: iterate with a callback that records the document and
returns `ErrStreamClosed`; translate a final `ErrStreamClosed` to nil. -/
def Stream.First (s : Stream D) : Option D × Option GoErr :=
  let r := Stream.Iterate s (Option D) none (fun _ d => (some d, some ErrStreamClosed))
  (r.1, if r.2 = some ErrStreamClosed then none else r.2)

/-- Observable document sequence of a stream: iterate with a callback that
collects every document it is passed and never errors. -/
def Stream.out (s : Stream D) : List D × Option GoErr :=
  Stream.Iterate s (List D) [] (fun acc d => (acc ++ [d], none))

/-! ### A pure denotation for operator chains

An iterator that contains no `multiIterator` behaves, for every callback,
like a plain list of documents (`chainRun`): the callback is fed the
documents in order; an error from the callback stops the run, the error
being translated by `scrub` exactly when the chain contains at least one
operator level; if the callback survives the whole list, the run ends with
the chain's own final error (never `ErrStreamClosed`). -/

/-- Reference run of a callback over a delivered document list.  `eL` is the
error the pipeline itself ends with when the callback survives every
document; `b` records whether a callback error is translated by `scrub` on
the way out (true iff the chain has at least one operator level). -/
def chainRun : List D → Option GoErr → Bool → {σ : Type} → σ → (σ → D → σ × Option GoErr) → σ × Option GoErr
  | [], eL, _, _, s, _ => (s, eL)
  | d :: L, eL, b, _, s, fn =>
      match fn s d with
      | (s', none) => chainRun L eL b s' fn
      | (s', some e) => (s', if b then scrub (some e) else some e)

/-- Pure semantics of one operator instance over a document list, starting
from instance state `c`: the documents the operator lets through, paired
with the operator's own aborting error, if any. -/
def opListFrom (op : StreamOp D) : Int → List D → List D × Option GoErr
  | _, [] => ([], none)
  | c, d :: t =>
      match opStep op c d with
      | (_, (_, some e)) => ([], some e)
      | (c', (none, none)) => opListFrom op c' t
      | (c', (some d', none)) =>
          match opListFrom op c' t with
          | (R, er) => (d' :: R, er)

/-- Combine an operator level's own aborting error (scrubbed at its own
level) with the final error of the chain below it. -/
def mergeErr : Option GoErr → Option GoErr → Option GoErr
  | some eo, _ => scrub (some eo)
  | none, e' => e'

/-- Denotation of a no-`multiIterator` iterator: delivered documents, final
error, and whether the chain contains an operator level.  (The
`multiIterator` case is junk; it is excluded by `NoMulti`.) -/
def den : Iterator D → List D × Option GoErr × Bool
  | Iterator.documentsIterator ds => (ds, none, false)
  | Iterator.multiIterator _ => ([], none, false)
  | Iterator.stream none _ => ([], none, false)
  | Iterator.stream (some it) none => den it
  | Iterator.stream (some it) (some op) =>
      match den it with
      | (L, e, _) =>
          match opListFrom op 0 L with
          | (R, eo) => (R, mergeErr eo e, true)

/-- Iterators that contain no `multiIterator` (streams built without
`Append`). -/
inductive NoMulti : Iterator D → Prop where
  | documentsIterator (ds : List D) : NoMulti (Iterator.documentsIterator ds)
  | streamNone (o : Option (StreamOp D)) : NoMulti (Iterator.stream none o)
  | streamSome (it : Iterator D) (o : Option (StreamOp D)) :
      NoMulti it → NoMulti (Iterator.stream (some it) o)

theorem scrub_ne_streamClosed (e : Option GoErr) : scrub e ≠ some GoErr.streamClosed := by
  unfold scrub ErrStreamClosed
  split
  · simp
  · assumption

theorem scrub_scrub (e : Option GoErr) : scrub (scrub e) = scrub e := by
  unfold scrub ErrStreamClosed
  split <;> simp_all

theorem scrub_of_ne (e : Option GoErr) (h : e ≠ some GoErr.streamClosed) : scrub e = e := by
  unfold scrub ErrStreamClosed
  split <;> simp_all

/-- `documentsIterate` is `chainRun` of the very list with no final error
and no operator level. -/
theorem documentsIterate_chainRun (ds : List D) :
    ∀ {σ : Type} (s : σ) (fn : σ → D → σ × Option GoErr),
      documentsIterate fn ds s = chainRun ds none false s fn := by
  induction ds with
  | nil => intro σ s fn; rfl
  | cons d t ih =>
      intro σ s fn
      show (match fn s d with
        | (s', none) => documentsIterate fn t s'
        | (s', some e) => (s', some e)) = _
      rcases h : fn s d with ⟨s', e⟩
      cases e with
      | none => simpa [chainRun, h] using ih s' fn
      | some e => simp [chainRun, h]

/-- The workhorse: pushing an operator level below a `chainRun` (with the
operator's mutable state threaded through `wrap`) yields the `chainRun` of
the operator's pure list semantics. -/
theorem wrap_chainRun (op : StreamOp D) (L : List D) (e' : Option GoErr)
    (he' : e' ≠ some GoErr.streamClosed) (b' : Bool) :
    ∀ (c : Int) {σ : Type} (s : σ) (fn : σ → D → σ × Option GoErr),
      ((chainRun L e' b' (c, s) (wrap op fn)).1.2,
        scrub (chainRun L e' b' (c, s) (wrap op fn)).2)
      = chainRun (opListFrom op c L).1 (mergeErr (opListFrom op c L).2 e') true s fn := by
  induction L with
  | nil =>
      intro c σ s fn
      simp [chainRun, opListFrom, mergeErr, scrub_of_ne e' he']
  | cons d t ih =>
      intro c σ s fn
      rcases hstep : opStep op c d with ⟨c', d?, e?⟩
      cases e? with
      | some eo =>
          have hw : wrap op fn (c, s) d = ((c', s), some eo) := by
            cases d? <;> simp [wrap, hstep]
          simp only [chainRun, hw, opListFrom, hstep, mergeErr]
          cases b' <;> simp [scrub_scrub]
      | none =>
          cases d? with
          | none =>
              have hw : wrap op fn (c, s) d = ((c', s), none) := by
                simp [wrap, hstep]
              simp only [chainRun, hw, opListFrom, hstep]
              exact ih c' s fn
          | some d' =>
              rcases hfn : fn s d' with ⟨s₁, e₁⟩
              have hw : wrap op fn (c, s) d = ((c', s₁), e₁) := by
                simp [wrap, hstep, hfn]
              cases e₁ with
              | none =>
                  simp only [chainRun, hw, opListFrom, hstep]
                  rcases hrec : opListFrom op c' t with ⟨R, er⟩
                  have := ih c' s₁ fn
                  rw [hrec] at this
                  simpa [chainRun, hfn] using this
              | some e₁ =>
                  simp only [chainRun, hw, opListFrom, hstep]
                  rcases hrec : opListFrom op c' t with ⟨R, er⟩
                  simp only [chainRun, hfn]
                  cases b' <;> simp [scrub_scrub]

/-- Correctness of the chain denotation: a no-`multiIterator` iterator
behaves like `chainRun` of its denotation, and its final error is never
`ErrStreamClosed`. -/
theorem den_correct (it : Iterator D) (h : NoMulti it) :
    (den it).2.1 ≠ some GoErr.streamClosed ∧
    ∀ (σ : Type) (s : σ) (fn : σ → D → σ × Option GoErr),
      it.iterate σ s fn = chainRun (den it).1 (den it).2.1 (den it).2.2 s fn := by
  induction h with
  | documentsIterator ds =>
      refine ⟨by simp [den], ?_⟩
      intro σ s fn
      simpa [den, Iterator.iterate] using documentsIterate_chainRun ds s fn
  | streamNone o =>
      refine ⟨by simp [den], ?_⟩
      intro σ s fn
      cases o <;> simp [den, Iterator.iterate, chainRun]
  | streamSome it o hnm ih =>
      rcases ih with ⟨ihne, ihrun⟩
      cases o with
      | none =>
          exact ⟨by simpa [den] using ihne, by
            intro σ s fn
            simpa [den, Iterator.iterate] using ihrun σ s fn⟩
      | some op =>
          rcases hden : den it with ⟨L, e', b'⟩
          rw [hden] at ihne ihrun
          rcases hol : opListFrom op 0 L with ⟨R, eo⟩
          constructor
          · simp only [den, hden, hol]
            cases eo with
            | none => simpa [mergeErr] using ihne
            | some eo => simp [mergeErr, scrub_ne_streamClosed]
          · intro σ s fn
            have hiter :
                Iterator.iterate (Iterator.stream (some it) (some op)) σ s fn
                  = ((Iterator.iterate it (Int × σ) ((0 : Int), s) (wrap op fn)).1.2,
                      scrub (Iterator.iterate it (Int × σ) ((0 : Int), s) (wrap op fn)).2) := by
              simp [Iterator.iterate]
            rw [hiter, ihrun (Int × σ) ((0 : Int), s) (wrap op fn)]
            have := wrap_chainRun op L e' ihne b' 0 s fn
            rw [hol] at this
            rw [this]
            simp [den, hden, hol]

/-! ### Structural induction over iterators (including `multiIterator`) -/

/-- Strong induction principle for `Iterator`, handling the nested
`List (Iterator D)` of `multiIterator` through `sizeOf`. -/
theorem Iterator.strongInd (P : Iterator D → Prop)
    (hdocs : ∀ ds, P (Iterator.documentsIterator ds))
    (hmulti : ∀ l, (∀ it ∈ l, P it) → P (Iterator.multiIterator l))
    (hsnone : ∀ o, P (Iterator.stream none o))
    (hssome : ∀ it o, P it → P (Iterator.stream (some it) o)) :
    ∀ it, P it := by
  have key : ∀ (n : Nat) (it : Iterator D), sizeOf it ≤ n → P it := by
    intro n
    induction n with
    | zero =>
        intro it h
        exfalso
        cases it <;> simp_arith at h
    | succ n ih =>
        intro it h
        match it with
        | Iterator.documentsIterator ds => exact hdocs ds
        | Iterator.multiIterator l =>
            refine hmulti l (fun it' hm => ih it' ?_)
            have hlt := List.sizeOf_lt_of_mem hm
            simp only [Iterator.multiIterator.sizeOf_spec] at h
            omega
        | Iterator.stream none o => exact hsnone o
        | Iterator.stream (some it') o =>
            refine hssome it' o (ih it' ?_)
            simp only [Iterator.stream.sizeOf_spec, Option.some.sizeOf_spec] at h
            omega
  intro it
  exact key (sizeOf it) it le_rfl

/-! ### The simulation lemma

Two iterations of the same iterator with related callbacks stay related:
the final states are related and the final errors are equal.  This is the
tool for erasing a transparent operator level (such as `Filter` with an
always-true predicate). -/

/-- Statement of the simulation property for one iterator. -/
def SimP (it : Iterator D) : Prop :=
  ∀ (σ τ : Type) (R : σ → τ → Prop)
    (fn : σ → D → σ × Option GoErr) (gn : τ → D → τ × Option GoErr),
    (∀ s t d, R s t → R (fn s d).1 (gn t d).1 ∧ (fn s d).2 = (gn t d).2) →
    ∀ s t, R s t →
      R (it.iterate σ s fn).1 (it.iterate τ t gn).1 ∧
        (it.iterate σ s fn).2 = (it.iterate τ t gn).2

theorem documentsIterate_sim (ds : List D) (σ τ : Type) (R : σ → τ → Prop)
    (fn : σ → D → σ × Option GoErr) (gn : τ → D → τ × Option GoErr)
    (hfg : ∀ s t d, R s t → R (fn s d).1 (gn t d).1 ∧ (fn s d).2 = (gn t d).2) :
    ∀ s t, R s t →
      R (documentsIterate fn ds s).1 (documentsIterate gn ds t).1 ∧
        (documentsIterate fn ds s).2 = (documentsIterate gn ds t).2 := by
  induction ds with
  | nil => intro s t hR; exact ⟨hR, rfl⟩
  | cons d rest ih =>
      intro s t hR
      obtain ⟨hR', heq⟩ := hfg s t d hR
      rcases hf : fn s d with ⟨s', e₁⟩
      rcases hg : gn t d with ⟨t', e₂⟩
      rw [hf] at hR' heq
      rw [hg] at hR' heq
      simp only at hR' heq
      subst heq
      cases e₁ with
      | none => simpa [documentsIterate, hf, hg] using ih s' t' hR'
      | some e => simp [documentsIterate, hf, hg, hR']

theorem iterate_sim : ∀ it : Iterator D, SimP it := by
  refine Iterator.strongInd SimP ?_ ?_ ?_ ?_
  · intro ds σ τ R fn gn hfg s t hR
    simpa [Iterator.iterate] using documentsIterate_sim ds σ τ R fn gn hfg s t hR
  · intro l hl
    have hlist : ∀ l', (∀ it ∈ l', SimP it) →
        ∀ (σ τ : Type) (R : σ → τ → Prop)
          (fn : σ → D → σ × Option GoErr) (gn : τ → D → τ × Option GoErr),
          (∀ s t d, R s t → R (fn s d).1 (gn t d).1 ∧ (fn s d).2 = (gn t d).2) →
          ∀ s t, R s t →
            R (multiIterate l' σ s fn).1 (multiIterate l' τ t gn).1 ∧
              (multiIterate l' σ s fn).2 = (multiIterate l' τ t gn).2 := by
      intro l'
      induction l' with
      | nil => intro _ σ τ R fn gn hfg s t hR; exact ⟨hR, rfl⟩
      | cons it rest ih =>
          intro hmem σ τ R fn gn hfg s t hR
          have hhead := hmem it (List.mem_cons_self it rest) σ τ R fn gn hfg s t hR
          rcases h1 : it.iterate σ s fn with ⟨s', e₁⟩
          rcases h2 : it.iterate τ t gn with ⟨t', e₂⟩
          rw [h1, h2] at hhead
          obtain ⟨hR', heq⟩ := hhead
          simp only at hR' heq
          subst heq
          cases e₁ with
          | none =>
              have := ih (fun i hi => hmem i (List.mem_cons_of_mem it hi)) σ τ R fn gn hfg s' t' hR'
              simpa [multiIterate, h1, h2] using this
          | some e => simp [multiIterate, h1, h2, hR']
    intro σ τ R fn gn hfg s t hR
    simpa [Iterator.iterate] using hlist l hl σ τ R fn gn hfg s t hR
  · intro o σ τ R fn gn hfg s t hR
    cases o <;> exact ⟨hR, rfl⟩
  · intro it o hit
    cases o with
    | none =>
        intro σ τ R fn gn hfg s t hR
        simpa [Iterator.iterate] using hit σ τ R fn gn hfg s t hR
    | some op =>
        intro σ τ R fn gn hfg s t hR
        have hwrap : ∀ (p : Int × σ) (q : Int × τ) (d : D),
            (fun p q => p.1 = q.1 ∧ R p.2 q.2) p q →
            (fun p q => p.1 = q.1 ∧ R p.2 q.2) ((wrap op fn) p d).1 ((wrap op gn) q d).1 ∧
              ((wrap op fn) p d).2 = ((wrap op gn) q d).2 := by
          rintro ⟨c, s₀⟩ ⟨c₂, t₀⟩ d ⟨hc, hR₀⟩
          subst hc
          rcases hstep : opStep op c d with ⟨c', d?, e?⟩
          cases e? with
          | some e => cases d? <;> simp [wrap, hstep, hR₀]
          | none =>
              cases d? with
              | none => simp [wrap, hstep, hR₀]
              | some d' =>
                  obtain ⟨hR', heq⟩ := hfg s₀ t₀ d' hR₀
                  rcases hf : fn s₀ d' with ⟨s', e₁⟩
                  rcases hg : gn t₀ d' with ⟨t', e₂⟩
                  rw [hf] at hR' heq
                  rw [hg] at hR' heq
                  simp only at hR' heq
                  subst heq
                  simp [wrap, hstep, hf, hg, hR']
        have := hit (Int × σ) (Int × τ) (fun p q => p.1 = q.1 ∧ R p.2 q.2)
          (wrap op fn) (wrap op gn) hwrap ((0 : Int), s) ((0 : Int), t) ⟨rfl, hR⟩
        rcases h1 : it.iterate (Int × σ) ((0 : Int), s) (wrap op fn) with ⟨⟨c₁, s'⟩, e₁⟩
        rcases h2 : it.iterate (Int × τ) ((0 : Int), t) (wrap op gn) with ⟨⟨c₂, t'⟩, e₂⟩
        rw [h1, h2] at this
        obtain ⟨⟨hc, hR'⟩, heq⟩ := this
        simp only at hR' heq
        subst heq
        simp [Iterator.iterate, h1, h2, hR']

/-! ### `ErrStreamClosed` never escapes an operator level -/

/-- Statement: if the callback never returns `ErrStreamClosed`, the
iteration never returns it either (every operator-generated stop signal is
translated at its own stream level). -/
def NoSCP (it : Iterator D) : Prop :=
  ∀ (σ : Type) (s : σ) (fn : σ → D → σ × Option GoErr),
    (∀ st d, (fn st d).2 ≠ some GoErr.streamClosed) →
    (it.iterate σ s fn).2 ≠ some GoErr.streamClosed

theorem documentsIterate_noSC (ds : List D) (σ : Type)
    (fn : σ → D → σ × Option GoErr)
    (hfn : ∀ st d, (fn st d).2 ≠ some GoErr.streamClosed) :
    ∀ s : σ, (documentsIterate fn ds s).2 ≠ some GoErr.streamClosed := by
  induction ds with
  | nil => intro s; simp [documentsIterate]
  | cons d rest ih =>
      intro s
      rcases hf : fn s d with ⟨s', e⟩
      cases e with
      | none => simpa [documentsIterate, hf] using ih s'
      | some e =>
          have := hfn s d
          rw [hf] at this
          simpa [documentsIterate, hf] using this

theorem iterate_noSC : ∀ it : Iterator D, NoSCP it := by
  refine Iterator.strongInd NoSCP ?_ ?_ ?_ ?_
  · intro ds σ s fn hfn
    simpa [Iterator.iterate] using documentsIterate_noSC ds σ fn hfn s
  · intro l hl
    have hlist : ∀ l', (∀ it ∈ l', NoSCP it) →
        ∀ (σ : Type) (s : σ) (fn : σ → D → σ × Option GoErr),
          (∀ st d, (fn st d).2 ≠ some GoErr.streamClosed) →
          (multiIterate l' σ s fn).2 ≠ some GoErr.streamClosed := by
      intro l'
      induction l' with
      | nil => intro _ σ s fn hfn; simp [multiIterate]
      | cons it rest ih =>
          intro hmem σ s fn hfn
          rcases h1 : it.iterate σ s fn with ⟨s', e⟩
          cases e with
          | none =>
              simpa [multiIterate, h1] using
                ih (fun i hi => hmem i (List.mem_cons_of_mem it hi)) σ s' fn hfn
          | some e =>
              have := hmem it (List.mem_cons_self it rest) σ s fn hfn
              rw [h1] at this
              simpa [multiIterate, h1] using this
    intro σ s fn hfn
    simpa [Iterator.iterate] using hlist l hl σ s fn hfn
  · intro o σ s fn _
    cases o <;> simp [Iterator.iterate]
  · intro it o hit
    cases o with
    | none =>
        intro σ s fn hfn
        simpa [Iterator.iterate] using hit σ s fn hfn
    | some op =>
        intro σ s fn _
        simpa [Iterator.iterate] using
          scrub_ne_streamClosed (it.iterate (Int × σ) ((0 : Int), s) (wrap op fn)).2

/-! ### Pure semantics of `Offset` and `Limit`, and `chainRun` evaluations -/

/-- `Offset n` from instance state `c` drops the next `n - c` documents and
never errors. -/
theorem opListFrom_offset (n : Int) (ds : List D) :
    ∀ c : Int, opListFrom (StreamOp.offsetOp n) c ds = (ds.drop (n - c).toNat, none) := by
  induction ds with
  | nil => intro c; simp [opListFrom]
  | cons d t ih =>
      intro c
      by_cases hc : c < n
      · have hstep : opStep (StreamOp.offsetOp n) c d = (c + 1, (none, none)) := by
          simp [opStep, hc]
        have hdrop : (n - c).toNat = (n - (c + 1)).toNat + 1 := by omega
        simp [opListFrom, hstep, ih (c + 1), hdrop]
      · have hstep : opStep (StreamOp.offsetOp n) c d = (c, (some d, none)) := by
          simp [opStep, hc]
        have hdrop : (n - c).toNat = 0 := by omega
        simp [opListFrom, hstep, ih c, hdrop]

/-- `Limit n` from instance state `c` passes the next `n - c` documents and
then aborts with `ErrStreamClosed`; if the list runs out first there is no
operator error. -/
theorem opListFrom_limit (n : Int) (ds : List D) :
    ∀ c : Int, opListFrom (StreamOp.limitOp n) c ds =
      (ds.take (n - c).toNat,
        if ds.length ≤ (n - c).toNat then none else some GoErr.streamClosed) := by
  induction ds with
  | nil => intro c; simp [opListFrom]
  | cons d t ih =>
      intro c
      by_cases hc : c < n
      · have hstep : opStep (StreamOp.limitOp n) c d = (c + 1, (some d, none)) := by
          simp [opStep, hc]
        have htake : (n - c).toNat = (n - (c + 1)).toNat + 1 := by omega
        have hcond : ((d :: t).length ≤ (n - (c + 1)).toNat + 1) = (t.length ≤ (n - (c + 1)).toNat) := by
          simp only [List.length_cons, eq_iff_iff]
          omega
        simp only [opListFrom, hstep, ih (c + 1), htake, List.take_succ_cons, hcond]
      · have hstep : opStep (StreamOp.limitOp n) c d = (c, (none, some ErrStreamClosed)) := by
          simp [opStep, hc]
        have h0 : (n - c).toNat = 0 := by omega
        simp [opListFrom, hstep, h0, ErrStreamClosed]

/-- Running the collecting callback over a chain appends the chain's
documents to the accumulator and ends with the chain's final error. -/
theorem chainRun_collect (eL : Option GoErr) (b : Bool) :
    ∀ (L : List D) (acc : List D),
      chainRun L eL b acc (fun acc d => (acc ++ [d], none)) = (acc ++ L, eL) := by
  intro L
  induction L with
  | nil => intro acc; simp [chainRun]
  | cons d t ih => intro acc; simp [chainRun, ih]

/-- Running the counting callback over a chain adds the chain's length to
the counter. -/
theorem chainRun_count (eL : Option GoErr) (b : Bool) :
    ∀ (L : List D) (c : Int),
      chainRun L eL b c (fun c _ => (c + 1, none)) = (c + L.length, eL) := by
  intro L
  induction L with
  | nil => intro c; simp [chainRun]
  | cons d t ih =>
      intro c
      rw [chainRun]
      simp only [ih (c + 1), List.length_cons]
      have : c + 1 + (t.length : Int) = c + ((t.length : Int) + 1) := by omega
      rw [Prod.mk.injEq]
      exact ⟨by push_cast; omega, rfl⟩

/-- Running the `First` callback over a chain with no final error yields the
chain's head (and an error that `First` translates away). -/
theorem chainRun_first (b : Bool) (L : List D) :
    chainRun L none b (none : Option D) (fun _ d => (some d, some GoErr.streamClosed))
      = match L with
        | [] => (none, none)
        | d :: _ => (some d, if b then none else some GoErr.streamClosed) := by
  cases L with
  | nil => rfl
  | cons d t =>
      cases b <;> simp [chainRun, scrub, ErrStreamClosed]

/-- Appending one iterator to a `multiIterator` slice runs the slice first,
then (on a nil error) the appended iterator. -/
theorem multiIterate_append (i : Iterator D) :
    ∀ (l : List (Iterator D)) (σ : Type) (s : σ) (fn : σ → D → σ × Option GoErr),
      multiIterate (l ++ [i]) σ s fn
        = match multiIterate l σ s fn with
          | (s', none) => i.iterate σ s' fn
          | (s', some e) => (s', some e) := by
  intro l
  induction l with
  | nil =>
      intro σ s fn
      rcases h : i.iterate σ s fn with ⟨s', e⟩
      cases e <;> simp [multiIterate, h]
  | cons it rest ih =>
      intro σ s fn
      rcases h : it.iterate σ s fn with ⟨s', e⟩
      cases e with
      | none => simp [multiIterate, h, ih]
      | some e => simp [multiIterate, h]

/-- Collapse of a singleton `multiIterator` run. -/
theorem multiIterate_single (i : Iterator D) (σ : Type) (s : σ)
    (fn : σ → D → σ × Option GoErr) :
    multiIterate [i] σ s fn = i.iterate σ s fn := by
  rcases h : i.iterate σ s fn with ⟨s', e⟩
  cases e <;> simp [multiIterate, h]

/-! ## Claim theorems -/

/-- C1, counterexample: for a stream whose `op` field is nil, `Stream.Iterate`
delegates directly to the underlying iterator, so an `ErrStreamClosed`
returned by the caller's callback is returned to the caller unchanged
instead of being translated to a nil error. -/
theorem spec_C1_counterexample :
    (Stream.Iterate (NewStream (Iterator.documentsIterator [(0 : Nat)])) Unit ()
      (fun _ _ => ((), some GoErr.streamClosed))).2 = some GoErr.streamClosed := rfl

/-- C1, amended: if the stream has at least one operator (`s.op ≠ nil`), or
the callback itself never returns `ErrStreamClosed`, then `Stream.Iterate`
never returns `ErrStreamClosed` (stop signals from operators — including a
Map function returning `ErrStreamClosed` — are translated to a nil error at
their own stream level); and for a stream with an operator, any error other
than `ErrStreamClosed` produced by the underlying run is returned to the
caller exactly. -/
theorem spec_C1_amended (D : Type) (s : Stream D) (σ : Type) (s0 : σ)
    (fn : σ → D → σ × Option GoErr)
    (h : s.op ≠ none ∨ ∀ st d, (fn st d).2 ≠ some GoErr.streamClosed) :
    (Stream.Iterate s σ s0 fn).2 ≠ some GoErr.streamClosed ∧
    (∀ it op, s.it = some it → s.op = some op →
      ∀ e, e ≠ GoErr.streamClosed →
        (it.iterate (Int × σ) ((0 : Int), s0) (wrap op fn)).2 = some e →
        (Stream.Iterate s σ s0 fn).2 = some e) := by
  constructor
  · rcases h with hop | hfn
    · rcases hs : s.op with _ | op
      · exact absurd hs hop
      · rcases hit : s.it with _ | it
        · simp [Stream.Iterate, Stream.toIter, hs, hit, Iterator.iterate]
        · have : Stream.Iterate s σ s0 fn
              = ((Iterator.iterate it (Int × σ) ((0 : Int), s0) (wrap op fn)).1.2,
                  scrub (Iterator.iterate it (Int × σ) ((0 : Int), s0) (wrap op fn)).2) := by
            simp [Stream.Iterate, Stream.toIter, hs, hit, Iterator.iterate]
          rw [this]
          exact scrub_ne_streamClosed _
    · exact iterate_noSC s.toIter σ s0 fn hfn
  · intro it op hit hop e hne hrun
    have : Stream.Iterate s σ s0 fn
        = ((Iterator.iterate it (Int × σ) ((0 : Int), s0) (wrap op fn)).1.2,
            scrub (Iterator.iterate it (Int × σ) ((0 : Int), s0) (wrap op fn)).2) := by
      simp [Stream.Iterate, Stream.toIter, hit, hop, Iterator.iterate]
    rw [this, hrun]
    simp [scrub_of_ne (some e) (by simpa using hne)]

/-- Witness for C1 (amended), discharging the hypothesis at a concrete
stream with an operator. -/
theorem spec_C1_amended_witness :
    (Stream.Iterate
        (⟨some (Iterator.documentsIterator [(0 : Nat), 1]), some (StreamOp.limitOp 1)⟩ : Stream Nat)
        (List Nat) [] (fun acc d => (acc ++ [d], none))).2 ≠ some GoErr.streamClosed :=
  (spec_C1_amended Nat _ _ _ _ (Or.inl (by simp))).1

/-- Denotation of a documents stream under one `Limit n` level. -/
theorem den_limit_docs (ds : List D) (n : Nat) :
    den (Iterator.stream (some (Iterator.stream (some (Iterator.documentsIterator ds)) none))
      (some (StreamOp.limitOp (n : Int)))) = (ds.take n, none, true) := by
  simp only [den, opListFrom_limit, Int.sub_zero, Int.toNat_natCast]
  split <;> simp [mergeErr, scrub, ErrStreamClosed]

/-- Denotation of a documents stream under `Offset n` then `Limit m`. -/
theorem den_offset_limit_docs (ds : List D) (n m : Nat) :
    den (Iterator.stream
      (some (Iterator.stream (some (Iterator.stream (some (Iterator.documentsIterator ds)) none))
        (some (StreamOp.offsetOp (n : Int)))))
      (some (StreamOp.limitOp (m : Int)))) = ((ds.drop n).take m, none, true) := by
  have hoff : den (Iterator.stream (some (Iterator.stream (some (Iterator.documentsIterator ds)) none))
      (some (StreamOp.offsetOp (n : Int)))) = (ds.drop n, none, true) := by
    simp [den, opListFrom_offset, mergeErr]
  rw [den, hoff]
  simp only [opListFrom_limit, Int.sub_zero, Int.toNat_natCast]
  split <;> simp [mergeErr, scrub, ErrStreamClosed]

/-- C6: for a stream over the documents `ds`, `Offset n` then `Limit m`
passes to the caller exactly documents `n .. n+m-1` of `ds` (those that
exist) in order with a nil error, and `Limit n` followed by `Count` returns
a count of at most `n` with a nil error. -/
theorem spec_C6 (D : Type) (ds : List D) (n m : Nat) :
    Stream.out (((NewStream (Iterator.documentsIterator ds)).Offset (n : Int)).Limit (m : Int))
      = ((ds.drop n).take m, none)
    ∧ (((NewStream (Iterator.documentsIterator ds)).Limit (n : Int)).Count).1 ≤ (n : Int)
    ∧ (((NewStream (Iterator.documentsIterator ds)).Limit (n : Int)).Count).2 = none := by
  have hnmL : NoMulti (Iterator.stream (some (Iterator.stream (some (Iterator.documentsIterator ds)) none))
      (some (StreamOp.limitOp (n : Int)))) :=
    NoMulti.streamSome _ _ (NoMulti.streamSome _ _ (NoMulti.documentsIterator ds))
  have hcount : (((NewStream (Iterator.documentsIterator ds)).Limit (n : Int)).Count)
      = (((ds.take n).length : Int), none) := by
    have hrun := (den_correct _ hnmL).2 Int 0 (fun c _ => (c + 1, none))
    rw [den_limit_docs] at hrun
    dsimp only at hrun
    have heq : (((NewStream (Iterator.documentsIterator ds)).Limit (n : Int)).Count)
        = Iterator.iterate (Iterator.stream (some (Iterator.stream (some (Iterator.documentsIterator ds)) none))
            (some (StreamOp.limitOp (n : Int)))) Int 0 (fun c _ => (c + 1, none)) := rfl
    rw [heq, hrun, chainRun_count]
    simp
  refine ⟨?_, ?_, ?_⟩
  · have hnm6 : NoMulti (Iterator.stream
        (some (Iterator.stream (some (Iterator.stream (some (Iterator.documentsIterator ds)) none))
          (some (StreamOp.offsetOp (n : Int)))))
        (some (StreamOp.limitOp (m : Int)))) :=
      NoMulti.streamSome _ _ (NoMulti.streamSome _ _
        (NoMulti.streamSome _ _ (NoMulti.documentsIterator ds)))
    have hrun := (den_correct _ hnm6).2 (List D) [] (fun acc d => (acc ++ [d], none))
    rw [den_offset_limit_docs] at hrun
    dsimp only at hrun
    have heq : Stream.out (((NewStream (Iterator.documentsIterator ds)).Offset (n : Int)).Limit (m : Int))
        = Iterator.iterate (Iterator.stream
            (some (Iterator.stream (some (Iterator.stream (some (Iterator.documentsIterator ds)) none))
              (some (StreamOp.offsetOp (n : Int)))))
            (some (StreamOp.limitOp (m : Int)))) (List D) [] (fun acc d => (acc ++ [d], none)) := rfl
    rw [heq, hrun, chainRun_collect]
    simp
  · rw [hcount]
    simp only [List.length_take]
    have : min n ds.length ≤ n := Nat.min_le_left _ _
    push_cast
    omega
  · rw [hcount]

/-- C7, counterexample: with an always-true predicate, `Filter` adds an
operator level whose final `ErrStreamClosed` translation changes the result
of `Iterate` when the caller's callback returns `ErrStreamClosed`: the
filtered stream returns nil where the bare stream returns
`ErrStreamClosed`. -/
theorem spec_C7_counterexample :
    Stream.Iterate ((NewStream (Iterator.documentsIterator [(0 : Nat)])).Filter
        (fun _ => (true, none))) Unit () (fun _ _ => ((), some GoErr.streamClosed))
      ≠ Stream.Iterate (NewStream (Iterator.documentsIterator [(0 : Nat)])) Unit ()
        (fun _ _ => ((), some GoErr.streamClosed)) := by
  intro h
  exact Option.noConfusion (congrArg Prod.snd h)

/-- C7, amended: for every stream `s` and an always-true, never-erring
predicate, iterating `s.Filter(pred)` calls the caller's callback on
exactly the same documents, in the same order, with the same final state
and the same final error as iterating `s` directly — provided the callback
never returns `ErrStreamClosed` (when it does, the extra operator level of
the filtered stream translates that error to nil while the bare stream may
surface it). -/
theorem spec_C7_amended (D : Type) (s : Stream D) (p : D → Bool × Option GoErr)
    (hp : ∀ d, p d = (true, none)) (σ : Type) (s0 : σ)
    (fn : σ → D → σ × Option GoErr)
    (hfn : ∀ st d, (fn st d).2 ≠ some GoErr.streamClosed) :
    Stream.Iterate (s.Filter p) σ s0 fn = Stream.Iterate s σ s0 fn := by
  have hL : Stream.Iterate (s.Filter p) σ s0 fn
      = ((Iterator.iterate s.toIter (Int × σ) ((0 : Int), s0) (wrap (StreamOp.filterOp p) fn)).1.2,
          scrub (Iterator.iterate s.toIter (Int × σ) ((0 : Int), s0) (wrap (StreamOp.filterOp p) fn)).2) := by
    simp [Stream.Iterate, Stream.Filter, Stream.Pipe, Stream.toIter, Iterator.iterate]
  have hwrap : ∀ (q : Int × σ) (t : σ) (d : D), q.2 = t →
      ((wrap (StreamOp.filterOp p) fn) q d).1.2 = (fn t d).1 ∧
        ((wrap (StreamOp.filterOp p) fn) q d).2 = (fn t d).2 := by
    rintro ⟨c, st⟩ t d hq
    cases hq
    have hstep : opStep (StreamOp.filterOp p) c d = (c, (some d, none)) := by
      simp [opStep, hp d]
    rcases hf : fn st d with ⟨s', e⟩
    simp [wrap, hstep, hf]
  have hsim := iterate_sim s.toIter (Int × σ) σ (fun q t => q.2 = t)
    (wrap (StreamOp.filterOp p) fn) fn
    (fun q t d hq => hwrap q t d hq) ((0 : Int), s0) s0 rfl
  obtain ⟨hst, herr⟩ := hsim
  have hne := iterate_noSC s.toIter σ s0 fn hfn
  rw [hL, hst, herr, scrub_of_ne _ hne]
  rfl

/-- Witness for C7 (amended) at a concrete stream, an always-true
predicate and the collecting callback. -/
theorem spec_C7_amended_witness :
    Stream.Iterate ((NewStream (Iterator.documentsIterator [(0 : Nat), 1])).Filter
        (fun _ => (true, none))) (List Nat) [] (fun acc d => (acc ++ [d], none))
      = Stream.Iterate (NewStream (Iterator.documentsIterator [(0 : Nat), 1])) (List Nat) []
          (fun acc d => (acc ++ [d], none)) :=
  spec_C7_amended Nat _ _ (fun _ => rfl) _ _ _ (fun _ _ => by simp)

/-- C8, counterexample: `Append` on a stream whose `op` field is non-nil
(here `Offset 1`) keeps that operator on the combined stream and also
leaves it inside the first component, so the operator acts twice: the
appended iterator's document `2` is dropped by the re-applied offset and
the result is `[2]` instead of `[1, 2]` (the bare stream yields `[1]`). -/
theorem spec_C8_counterexample :
    Stream.out (((NewStream (Iterator.documentsIterator [(0 : Nat), 1])).Offset 1).Append
        (Iterator.documentsIterator [2])) = ([2], none)
    ∧ Stream.out ((NewStream (Iterator.documentsIterator [(0 : Nat), 1])).Offset 1)
        = ([1], none) :=
  ⟨rfl, rfl⟩

/-- C8, amended: if the stream's `op` field is nil, `Append` concatenates:
iterating `s.Append(i)` runs `s` first and then, if `s` finished without
error, runs `i` on the resulting state, passing its documents unchanged.
(When `s.op` is non-nil the code re-applies that operator across the whole
concatenation, as the counterexample shows.) -/
theorem spec_C8_amended (D : Type) (s : Stream D) (i : Iterator D) (h : s.op = none)
    (σ : Type) (s0 : σ) (fn : σ → D → σ × Option GoErr) :
    Stream.Iterate (s.Append i) σ s0 fn
      = match Stream.Iterate s σ s0 fn with
        | (s1, none) => i.iterate σ s1 fn
        | (s1, some e) => (s1, some e) := by
  rcases s with ⟨sit, sop⟩
  cases h
  cases sit with
  | none =>
      have h1 : Stream.Iterate ((⟨none, none⟩ : Stream D).Append i) σ s0 fn
          = multiIterate [Iterator.stream none none, i] σ s0 fn := rfl
      rw [h1]
      have h2 : multiIterate [Iterator.stream none none, i] σ s0 fn
          = multiIterate [i] σ s0 fn := by
        simp [multiIterate, Iterator.iterate]
      rw [h2, multiIterate_single]
      rfl
  | some x =>
      cases x with
      | multiIterator l =>
          have h1 : Stream.Iterate ((⟨some (Iterator.multiIterator l), none⟩ : Stream D).Append i) σ s0 fn
              = multiIterate (l ++ [i]) σ s0 fn := rfl
          have h2 : Stream.Iterate (⟨some (Iterator.multiIterator l), none⟩ : Stream D) σ s0 fn
              = multiIterate l σ s0 fn := rfl
          rw [h1, h2, multiIterate_append]
      | documentsIterator ds =>
          have h1 : Stream.Iterate ((⟨some (Iterator.documentsIterator ds), none⟩ : Stream D).Append i) σ s0 fn
              = multiIterate [Iterator.stream (some (Iterator.documentsIterator ds)) none, i] σ s0 fn := rfl
          rw [h1]
          rcases hx : Iterator.iterate (Iterator.documentsIterator ds) σ s0 fn with ⟨s1, e⟩
          have h2 : Stream.Iterate (⟨some (Iterator.documentsIterator ds), none⟩ : Stream D) σ s0 fn
              = (s1, e) := hx
          rw [h2]
          have h3 : Iterator.iterate (Iterator.stream (some (Iterator.documentsIterator ds)) none) σ s0 fn
              = (s1, e) := hx
          cases e with
          | none =>
              rcases hi : i.iterate σ s1 fn with ⟨s2, e2⟩
              cases e2 <;> simp [multiIterate, h3, hi]
          | some e => simp [multiIterate, h3]
      | stream it2 op2 =>
          have h1 : Stream.Iterate ((⟨some (Iterator.stream it2 op2), none⟩ : Stream D).Append i) σ s0 fn
              = multiIterate [Iterator.stream (some (Iterator.stream it2 op2)) none, i] σ s0 fn := rfl
          rw [h1]
          rcases hx : Iterator.iterate (Iterator.stream it2 op2) σ s0 fn with ⟨s1, e⟩
          have h2 : Stream.Iterate (⟨some (Iterator.stream it2 op2), none⟩ : Stream D) σ s0 fn
              = (s1, e) := by
            simp [Stream.Iterate, Stream.toIter, Iterator.iterate, hx]
          rw [h2]
          have h3 : Iterator.iterate (Iterator.stream (some (Iterator.stream it2 op2)) none) σ s0 fn
              = (s1, e) := by
            simp [Iterator.iterate, hx]
          cases e with
          | none =>
              rcases hi : i.iterate σ s1 fn with ⟨s2, e2⟩
              cases e2 <;> simp [multiIterate, h3, hi]
          | some e => simp [multiIterate, h3]

/-- Witness for C8 (amended) at a concrete operator-free stream. -/
theorem spec_C8_amended_witness :
    Stream.Iterate ((NewStream (Iterator.documentsIterator [(0 : Nat), 1])).Append
        (Iterator.documentsIterator [2])) (List Nat) [] (fun acc d => (acc ++ [d], none))
      = match Stream.Iterate (NewStream (Iterator.documentsIterator [(0 : Nat), 1])) (List Nat) []
            (fun acc d => (acc ++ [d], none)) with
        | (s1, none) => Iterator.iterate (Iterator.documentsIterator [2]) (List Nat) s1
            (fun acc d => (acc ++ [d], none))
        | (s1, some e) => (s1, some e) :=
  spec_C8_amended Nat _ _ rfl _ _ _

/-- C10, counterexample: on a stream built by appending a documents
iterator to a filtered stream, the component stream translates the `First`
callback's `ErrStreamClosed` to nil, the `multiIterator` therefore
continues with the next component, and `First` returns the second document
`1` even though the pipeline passed `0` first. -/
theorem spec_C10_counterexample :
    Stream.First (((NewStream (Iterator.documentsIterator [(0 : Nat)])).Filter
        (fun _ => (true, none))).Append (Iterator.documentsIterator [1])) = (some 1, none)
    ∧ Stream.out (((NewStream (Iterator.documentsIterator [(0 : Nat)])).Filter
        (fun _ => (true, none))).Append (Iterator.documentsIterator [1])) = ([0, 1], none) :=
  ⟨rfl, rfl⟩

/-- C10, amended: for a stream containing no `multiIterator` (no `Append`)
whose full iteration finishes without error, `First` returns the first
document that reaches the end of the pipeline with a nil error, and
`(nil, nil)` when no document does. -/
theorem spec_C10_amended (D : Type) (s : Stream D) (h1 : NoMulti s.toIter)
    (h2 : (Stream.out s).2 = none) :
    Stream.First s = ((Stream.out s).1.head?, none) := by
  obtain ⟨hne, hrun⟩ := den_correct s.toIter h1
  rcases hd : den s.toIter with ⟨L, e, b⟩
  rw [hd] at hne hrun
  dsimp only at hne hrun
  have hout : Stream.out s = (L, e) := by
    have := hrun (List D) [] (fun acc d => (acc ++ [d], none))
    rw [chainRun_collect] at this
    simpa [Stream.out, Stream.Iterate] using this
  have he : e = none := by
    rw [hout] at h2
    exact h2
  cases he
  have hfirst := hrun (Option D) none (fun _ d => (some d, some GoErr.streamClosed))
  rw [chainRun_first] at hfirst
  rw [hout]
  cases L with
  | nil =>
      simp only [Stream.First, Stream.Iterate, ErrStreamClosed] at hfirst ⊢
      rw [hfirst]
      simp
  | cons d t =>
      simp only [Stream.First, Stream.Iterate, ErrStreamClosed] at hfirst ⊢
      rw [hfirst]
      cases b <;> simp

/-- Witness for C10 (amended) at a concrete `Limit 1` stream. -/
theorem spec_C10_amended_witness :
    Stream.First ((NewStream (Iterator.documentsIterator [(0 : Nat), 1])).Limit 1)
      = ((Stream.out ((NewStream (Iterator.documentsIterator [(0 : Nat), 1])).Limit 1)).1.head?, none) :=
  spec_C10_amended Nat _
    (NoMulti.streamSome _ _ (NoMulti.streamSome _ _ (NoMulti.documentsIterator _))) rfl

/-! ## Expressions: `AndOp.Eval` and `OrOp.Eval` (package `sql/query/expr`)

The `Expr` interface is `Eval(EvalStack) (document.Value, error)`; an
expression is embedded as its `Eval` function over an abstract stack type
`C`.  The `document.Value` type, `Value.IsTruthy` and the
`trueLitteral` / `falseLitteral` values live outside the given source
files; since `AndOp.Eval` / `OrOp.Eval` use them only as black boxes they
are abstracted as parameters. -/

/-- `AndOp.Eval`: evaluate `a`; on an error or a falsy value return the
false literal together with that error; otherwise evaluate `b` the same
way; if both are truthy return the true literal with a nil error. -/
def AndOp.Eval {V C : Type} (falseLitteral trueLitteral : V) (IsTruthy : V → Bool)
    (a b : C → V × Option GoErr) (ctx : C) : V × Option GoErr :=
  match a ctx with
  | (s, err) =>
    if err.isSome || !(IsTruthy s) then (falseLitteral, err)
    else
      match b ctx with
      | (s, err) =>
        if err.isSome || !(IsTruthy s) then (falseLitteral, err)
        else (trueLitteral, none)

/-- `OrOp.Eval`: evaluate `a`; on an error return the false literal with
that error; if truthy return the true literal; otherwise evaluate `b` the
same way; if neither is truthy return the false literal with a nil
error. -/
def OrOp.Eval {V C : Type} (falseLitteral trueLitteral : V) (IsTruthy : V → Bool)
    (a b : C → V × Option GoErr) (ctx : C) : V × Option GoErr :=
  match a ctx with
  | (_, some err) => (falseLitteral, some err)
  | (s, none) =>
    if IsTruthy s then (trueLitteral, none)
    else
      match b ctx with
      | (_, some err) => (falseLitteral, some err)
      | (s, none) =>
        if IsTruthy s then (trueLitteral, none) else (falseLitteral, none)

/-- C5: if `a` evaluates without error to a falsy value, `And(a, b).Eval`
returns the false literal with a nil error for every `b` (`b` is not
consulted, so any error it would produce is discarded); symmetrically, if
`a` evaluates without error to a truthy value, `Or(a, b).Eval` returns the
true literal with a nil error for every `b`. -/
theorem spec_C5 (V C : Type) (falseLitteral trueLitteral : V) (IsTruthy : V → Bool)
    (a : C → V × Option GoErr) (ctx : C) (v : V) (ha : a ctx = (v, none)) :
    (IsTruthy v = false → ∀ b,
        AndOp.Eval falseLitteral trueLitteral IsTruthy a b ctx = (falseLitteral, none))
    ∧ (IsTruthy v = true → ∀ b,
        OrOp.Eval falseLitteral trueLitteral IsTruthy a b ctx = (trueLitteral, none)) := by
  constructor
  · intro hf b
    simp [AndOp.Eval, ha, hf]
  · intro ht b
    simp [OrOp.Eval, ha, ht]

/-- Witness for C5: boolean values with identity truthiness; in each case
the skipped operand `b` errors, and the error is discarded. -/
theorem spec_C5_witness :
    AndOp.Eval false true (fun v => v) (fun _ : Unit => (false, none))
        (fun _ => (true, some (GoErr.user 7))) () = (false, none)
    ∧ OrOp.Eval false true (fun v => v) (fun _ : Unit => (true, none))
        (fun _ => (false, some (GoErr.user 7))) () = (true, none) :=
  ⟨(spec_C5 Bool Unit false true (fun v => v) (fun _ => (false, none)) () false rfl).1 rfl _,
   (spec_C5 Bool Unit false true (fun v => v) (fun _ => (true, none)) () true rfl).2 rfl _⟩

/-! ## Catalog: `tableConfigStore` (package `database`) -/

/-- Modelled from the spec: the `document.Value` constructors called by the
catalog code (`NewStringValue`, `NewUint8Value`, `NewInt64Value`) are not
among the given source files; a catalog value is one of the three kinds
they produce. -/
inductive CatValue where
  | vString (s : String)
  | vUint8 (n : Nat)
  | vInt64 (n : Int)
deriving DecidableEq

/-- Modelled from the spec: Go's `uint8(x)` conversion applied to
`document.ValueType` (an 8-bit kind tag per the encoding of §4.2):
truncation modulo 256. -/
def uint8 (n : Nat) : Nat := n % 256

/-- Modelled from the spec: `document.NewStringValue`. -/
def NewStringValue (s : String) : CatValue := CatValue.vString s

/-- Modelled from the spec: `document.NewUint8Value` (argument already a
`uint8`). -/
def NewUint8Value (n : Nat) : CatValue := CatValue.vUint8 n

/-- Modelled from the spec: `document.NewInt64Value`. -/
def NewInt64Value (n : Int) : CatValue := CatValue.vInt64 n

/-- Modelled from the spec: `document.FieldBuffer`, an ordered list of
(field name, value) pairs built with `Add`. -/
abbrev FieldBuffer := List (String × CatValue)

/-- Modelled from the spec: `FieldBuffer.Add` appends a field. -/
def FieldBuffer.Add (fb : FieldBuffer) (name : String) (v : CatValue) : FieldBuffer :=
  fb ++ [(name, v)]

/-- Modelled from the spec: the empty `document.FieldBuffer`. -/
def FieldBuffer.empty : FieldBuffer := []

/-- Modelled from the spec: `encoding.EncodedDocument`, the byte encoding
of a document.  Per §4.2/§8.1 decoding yields the same ordered field list,
so the encoded document is modelled by that field list. -/
abbrev EncodedDocument := List (String × CatValue)

/-- Modelled from the spec: `encoding.EncodeDocument` (§4.2); the encoding
preserves the ordered field list and cannot fail on a `FieldBuffer`. -/
def EncodeDocument (fb : FieldBuffer) : EncodedDocument := fb

/-- `engine.ErrKeyNotFound`; the pure store model produces no other engine
error. -/
inductive EngineErr where
  | keyNotFound
deriving DecidableEq

/-- The `database`-package errors the catalog code can surface. -/
inductive DatabaseErr where
  | tableAlreadyExists
  | tableNotFound
  | indexAlreadyExists
  | indexNotFound
  | fieldNotFound
  | conversionError
deriving DecidableEq

/-- Modelled from the spec: `EncodedDocument.GetByField` (the
random-access decoder of §4.2) returns the named field's value or a
field-not-found error. -/
def EncodedDocument.GetByField (d : EncodedDocument) (f : String) :
    Except DatabaseErr CatValue :=
  match List.lookup f (d : List (String × CatValue)) with
  | some v => Except.ok v
  | none => Except.error DatabaseErr.fieldNotFound

/-- Modelled from the spec: `Value.ConvertToString`; only a Text value
converts (the conversion lattice of §3, restricted to the kinds stored by
the catalog). -/
def CatValue.ConvertToString : CatValue → Except DatabaseErr String
  | CatValue.vString s => Except.ok s
  | _ => Except.error DatabaseErr.conversionError

/-- Modelled from the spec: `Value.ConvertToUint8`; a Uint8 converts
as-is, an Int64 converts when within range (narrowing fails when out of
range, §3). -/
def CatValue.ConvertToUint8 : CatValue → Except DatabaseErr Nat
  | CatValue.vUint8 n => Except.ok n
  | CatValue.vInt64 n =>
      if 0 ≤ n ∧ n < 256 then Except.ok n.toNat else Except.error DatabaseErr.conversionError
  | _ => Except.error DatabaseErr.conversionError

/-- Modelled from the spec: `Value.ConvertToInt64`; widening conversions
never fail (§3). -/
def CatValue.ConvertToInt64 : CatValue → Except DatabaseErr Int
  | CatValue.vInt64 n => Except.ok n
  | CatValue.vUint8 n => Except.ok n
  | _ => Except.error DatabaseErr.conversionError

namespace engine

/-- Modelled from the spec: the storage-engine `Store` (§4.1) is external
to the given source; it is an ordered key/value namespace, modelled as an
association list from keys (table names; Go passes their bytes) to stored
payloads (encoded documents). -/
structure Store where
  entries : List (String × EncodedDocument)

/-- Modelled from the spec: `Store.Get` returns the stored value or
`ErrKeyNotFound`. -/
def Store.Get (st : Store) (k : String) : Except EngineErr EncodedDocument :=
  match List.lookup k st.entries with
  | some v => Except.ok v
  | none => Except.error EngineErr.keyNotFound

/-- Modelled from the spec: `Store.Put` is last-writer-wins. -/
def Store.Put (st : Store) (k : String) (v : EncodedDocument) : Store :=
  ⟨(k, v) :: st.entries.filter (fun p => p.1 != k)⟩

/-- Modelled from the spec: `Store.Delete` removes the key or returns
`ErrKeyNotFound` when absent. -/
def Store.Delete (st : Store) (k : String) : Except EngineErr Store :=
  if (List.lookup k st.entries).isSome then
    Except.ok ⟨st.entries.filter (fun p => p.1 != k)⟩
  else Except.error EngineErr.keyNotFound

/-- Key presence in a store. -/
def Store.contains (st : Store) (k : String) : Bool :=
  (List.lookup k st.entries).isSome

end engine

/-- `database.TableConfig`.  `PrimaryKeyType` is a `document.ValueType`
kind tag (modelled as `Nat`; the encoding truncates it to `uint8`), and
`lastKey` is the Go `int64` auto-key counter. -/
structure TableConfig where
  PrimaryKeyName : String
  PrimaryKeyType : Nat
  lastKey : Int
deriving DecidableEq

/-- The document built and encoded identically by `tableConfigStore.Insert`
and `tableConfigStore.Replace`. -/
def encodeTableConfig (cfg : TableConfig) : EncodedDocument :=
  EncodeDocument
    (((FieldBuffer.empty.Add ("PrimaryKeyName") (NewStringValue cfg.PrimaryKeyName)).Add
        ("PrimaryKeyType") (NewUint8Value (uint8 cfg.PrimaryKeyType))).Add
      ("lastKey") (NewInt64Value cfg.lastKey))

namespace tableConfigStore

/-- `tableConfigStore.Insert`: fail with `ErrTableAlreadyExists` when the
key is present, otherwise encode the config and store it under
key = table name. -/
def Insert (t : engine.Store) (tableName : String) (cfg : TableConfig) :
    Except DatabaseErr engine.Store :=
  match t.Get tableName with
  | Except.ok _ => Except.error DatabaseErr.tableAlreadyExists
  | Except.error EngineErr.keyNotFound =>
      Except.ok (t.Put tableName (encodeTableConfig cfg))

/-- `tableConfigStore.Replace`: fail with `ErrTableNotFound` when the key
is absent, otherwise encode the config and overwrite. -/
def Replace (t : engine.Store) (tableName : String) (cfg : TableConfig) :
    Except DatabaseErr engine.Store :=
  match t.Get tableName with
  | Except.error EngineErr.keyNotFound => Except.error DatabaseErr.tableNotFound
  | Except.ok _ => Except.ok (t.Put tableName (encodeTableConfig cfg))

/-- `tableConfigStore.Get`: load the encoded document and decode the three
fields through `GetByField` and the conversions. -/
def Get (t : engine.Store) (tableName : String) : Except DatabaseErr TableConfig :=
  match t.Get tableName with
  | Except.error EngineErr.keyNotFound => Except.error DatabaseErr.tableNotFound
  | Except.ok v => do
      let f ← EncodedDocument.GetByField v ("PrimaryKeyName")
      let pkName ← f.ConvertToString
      let f ← EncodedDocument.GetByField v ("PrimaryKeyType")
      let tp ← f.ConvertToUint8
      let f ← EncodedDocument.GetByField v ("lastKey")
      let lk ← f.ConvertToInt64
      Except.ok ⟨pkName, tp, lk⟩

/-- `tableConfigStore.Delete`: delete from the store, translating the
engine's `ErrKeyNotFound` to `ErrTableNotFound`. -/
def Delete (t : engine.Store) (tableName : String) : Except DatabaseErr engine.Store :=
  match t.Delete tableName with
  | Except.error EngineErr.keyNotFound => Except.error DatabaseErr.tableNotFound
  | Except.ok st => Except.ok st

end tableConfigStore

/-- C2: `tableConfigStore.Insert` returns `ErrTableAlreadyExists` exactly
when an entry for the table name is present; otherwise it stores the
encoded config under key = table name and returns no error. -/
theorem spec_C2 (st : engine.Store) (tableName : String) (cfg : TableConfig) :
    tableConfigStore.Insert st tableName cfg
      = if st.contains tableName
          then Except.error DatabaseErr.tableAlreadyExists
          else Except.ok (st.Put tableName (encodeTableConfig cfg)) := by
  unfold tableConfigStore.Insert engine.Store.Get engine.Store.contains
  rcases h : List.lookup tableName st.entries with _ | v <;> simp [h]

/-- C3: `tableConfigStore.Replace` overwrites the stored config when the
key is present and returns `ErrTableNotFound` otherwise;
`tableConfigStore.Delete` removes the entry when present and returns
`ErrTableNotFound` otherwise. -/
theorem spec_C3 (st : engine.Store) (tableName : String) (cfg : TableConfig) :
    (tableConfigStore.Replace st tableName cfg
      = if st.contains tableName
          then Except.ok (st.Put tableName (encodeTableConfig cfg))
          else Except.error DatabaseErr.tableNotFound)
    ∧ (tableConfigStore.Delete st tableName
      = if st.contains tableName
          then Except.ok ⟨st.entries.filter (fun p => p.1 != tableName)⟩
          else Except.error DatabaseErr.tableNotFound) := by
  constructor
  · unfold tableConfigStore.Replace engine.Store.Get engine.Store.contains
    rcases h : List.lookup tableName st.entries with _ | v <;> simp [h]
  · unfold tableConfigStore.Delete engine.Store.Delete engine.Store.contains
    rcases h : List.lookup tableName st.entries with _ | v <;> simp [h]

/-- C4: inserting a fresh table config and reading it back returns an
equal config: `PrimaryKeyName`, `PrimaryKeyType` (an 8-bit kind tag) and
`lastKey` survive the encode/decode round trip. -/
theorem spec_C4 (st : engine.Store) (tableName : String) (cfg : TableConfig)
    (hk : cfg.PrimaryKeyType < 256) (habs : st.contains tableName = false) :
    ∃ st', tableConfigStore.Insert st tableName cfg = Except.ok st'
      ∧ tableConfigStore.Get st' tableName = Except.ok cfg := by
  have hlook : List.lookup tableName st.entries = none := by
    unfold engine.Store.contains at habs
    rcases h : List.lookup tableName st.entries with _ | v
    · rfl
    · rw [h] at habs
      simp at habs
  refine ⟨st.Put tableName (encodeTableConfig cfg), ?_, ?_⟩
  · unfold tableConfigStore.Insert engine.Store.Get
    simp [hlook]
  · have hget : (st.Put tableName (encodeTableConfig cfg)).Get tableName
        = Except.ok (encodeTableConfig cfg) := by
      unfold engine.Store.Get engine.Store.Put
      simp [List.lookup]
    unfold tableConfigStore.Get
    rw [hget]
    have hmod : uint8 cfg.PrimaryKeyType = cfg.PrimaryKeyType := Nat.mod_eq_of_lt hk
    simp [encodeTableConfig, EncodeDocument, FieldBuffer.empty, FieldBuffer.Add,
      EncodedDocument.GetByField, List.lookup, NewStringValue, NewUint8Value, NewInt64Value,
      CatValue.ConvertToString, CatValue.ConvertToUint8, CatValue.ConvertToInt64, hmod]
    rfl

/-- Witness for C4 at a concrete empty store and config. -/
theorem spec_C4_witness :
    ∃ st', tableConfigStore.Insert ⟨[]⟩ ("users") ⟨"id", 3, 0⟩ = Except.ok st'
      ∧ tableConfigStore.Get st' ("users") = Except.ok ⟨"id", 3, 0⟩ :=
  spec_C4 ⟨[]⟩ ("users") ⟨"id", 3, 0⟩ (by decide) rfl

/-! ## `genji.Open` -/

/-- The engine variant constructed by `Open`: the in-memory badger engine
(`badger.DefaultOptions("").WithInMemory(true).WithLogger(nil)`), or the
bolt engine rooted at a path with a file mode. -/
inductive Engine where
  | badgerMemory
  | bolt (path : String) (mode : Nat)
deriving DecidableEq

/-- Modelled from the spec: `genji.New` (not among the given source files)
wraps a constructed engine into a `DB`. -/
structure DB where
  ng : Engine
deriving DecidableEq

/-- Modelled from the spec: the external engine constructors
`badgerengine.NewEngine` / `boltengine.NewEngine` may fail; a failure is
injected through the `fail` argument, success produces the requested
variant. -/
def NewEngineResult (variant : Engine) (fail : Option GoErr) : Except GoErr Engine :=
  match fail with
  | some e => Except.error e
  | none => Except.ok variant

/-- `genji.Open`: the sentinel path `:memory:` selects the in-memory
badger engine; any other path selects the bolt engine rooted at that path
with file mode `0660`; a construction error is returned unchanged,
otherwise the engine is wrapped into a `DB`. -/
def Open (memFail : Option GoErr) (boltFail : String → Nat → Option GoErr)
    (path : String) : Except GoErr DB :=
  let ng : Except GoErr Engine :=
    if path = (":memory:") then NewEngineResult Engine.badgerMemory memFail
    else NewEngineResult (Engine.bolt path 0o660) (boltFail path 0o660)
  match ng with
  | Except.error e => Except.error e
  | Except.ok ng => Except.ok ⟨ng⟩

/-- C9: `Open(":memory:")` opens the in-memory variant; any other path
opens the on-disk variant rooted at that path with file mode `0660`; in
both cases the engine is wrapped into a `DB` and a construction error is
returned to the caller unchanged. -/
theorem spec_C9 (memFail : Option GoErr) (boltFail : String → Nat → Option GoErr)
    (path : String) :
    (path = (":memory:") → memFail = none →
        Open memFail boltFail path = Except.ok ⟨Engine.badgerMemory⟩)
    ∧ (path = (":memory:") → ∀ e, memFail = some e →
        Open memFail boltFail path = Except.error e)
    ∧ (path ≠ (":memory:") → boltFail path 0o660 = none →
        Open memFail boltFail path = Except.ok ⟨Engine.bolt path 0o660⟩)
    ∧ (path ≠ (":memory:") → ∀ e, boltFail path 0o660 = some e →
        Open memFail boltFail path = Except.error e) := by
  refine ⟨?_, ?_, ?_, ?_⟩
  · intro hp hm
    simp [Open, NewEngineResult, hp, hm]
  · intro hp e hm
    simp [Open, NewEngineResult, hp, hm]
  · intro hp hb
    simp [Open, NewEngineResult, hp, hb]
  · intro hp e hb
    simp [Open, NewEngineResult, hp, hb]

/-- Witness for C9, covering the four branches at concrete inputs. -/
theorem spec_C9_witness :
    Open none (fun _ _ => none) (":memory:") = Except.ok ⟨Engine.badgerMemory⟩
    ∧ Open (some (GoErr.user 1)) (fun _ _ => none) (":memory:") = Except.error (GoErr.user 1)
    ∧ Open none (fun _ _ => none) ("/data/db") = Except.ok ⟨Engine.bolt ("/data/db") 0o660⟩
    ∧ Open none (fun _ _ => some (GoErr.user 2)) ("x") = Except.error (GoErr.user 2) :=
  ⟨(spec_C9 none (fun _ _ => none) (":memory:")).1 rfl rfl,
   (spec_C9 (some (GoErr.user 1)) (fun _ _ => none) (":memory:")).2.1 rfl _ rfl,
   (spec_C9 none (fun _ _ => none) ("/data/db")).2.2.1 (by decide) rfl,
   (spec_C9 none (fun _ _ => some (GoErr.user 2)) ("x")).2.2.2 (by decide) _ rfl⟩

end Genji
